import Mathlib

/-!
Verification development for the gas-route-optimizer repository.

The repository ships a schema-only data model (`src/app/models.py`); the
route-optimization core described by the specification is not present in the
sources.  Definitions below that embed that core are therefore modelled from
the specification text and say so in their doc comments; definitions for the
schema constraints (ratings, traffic-condition records, request shapes) are
translated from `src/app/models.py`.

Conventions of the embedding: decimal quantities (coordinates, gallons,
miles, multipliers) are rationals; timestamps are rationals (minutes on an
absolute axis); fallible operations return `Except RouteError`.
-/

/-- Typed failures of the optimizer call, from the spec error taxonomy
(section 7). -/
inductive RouteError where
  | InvalidCoordinate
  | InvalidRouteRequest
  | NoFeasibleRoute
  | FuelExhausted
deriving DecidableEq, Repr

/-- Fuel types, translated from the `FuelType` enum in `src/app/models.py`. -/
inductive FuelType where
  | regular
  | midgrade
  | premium
  | diesel
  | e85
deriving DecidableEq, Repr

/-- An immutable latitude/longitude pair in decimal degrees (spec section 3,
mirroring the `latitude`/`longitude` Decimal columns of the schema). -/
structure Location where
  lat : ℚ
  lon : ℚ
deriving DecidableEq, Repr

/-- Latitude must lie in [-90, 90] (spec section 4.1). -/
def validLatB (x : ℚ) : Bool := decide (-90 ≤ x) && decide (x ≤ 90)

/-- Longitude must lie in [-180, 180] (spec section 4.1). -/
def validLonB (x : ℚ) : Bool := decide (-180 ≤ x) && decide (x ≤ 180)

/-- A location is valid when both coordinates are in range. -/
def validLocB (a : Location) : Bool := validLatB a.lat && validLonB a.lon

/-- Vehicle state of the Fuel Feasibility Model (spec sections 3 and 4.3):
mpg-equivalent economy, tank capacity and current fuel level, mirroring the
`vehicle_mpg`, `fuel_tank_capacity` and `current_fuel_level` fields of
`RouteOptimizationRequest` in `src/app/models.py`. -/
structure VehicleState where
  mpg : ℚ
  tank : ℚ
  fuel : ℚ
deriving DecidableEq, Repr

/-- The well-formedness invariant on vehicle state from spec section 3:
all fields non-negative and current fuel level at most tank capacity. -/
def validVehicle (v : VehicleState) : Prop :=
  0 ≤ v.mpg ∧ 0 ≤ v.tank ∧ 0 ≤ v.fuel ∧ v.fuel ≤ v.tank

instance (v : VehicleState) : Decidable (validVehicle v) := by
  unfold validVehicle; infer_instance

/-- Modelled from the spec (section 4.3, `rangeRemaining`; the function is
absent from `src/`): remaining range in miles. -/
def rangeRemaining (v : VehicleState) : ℚ := v.fuel * v.mpg

/-- Modelled from the spec (section 4.3, `canTraverse`; absent from `src/`):
a leg of length `d` is drivable when `d` is within the remaining range. -/
def canTraverse (d : ℚ) (v : VehicleState) : Bool := decide (d ≤ rangeRemaining v)

/-- Modelled from the spec (section 4.3, `consume`; absent from `src/`):
driving a leg of length `d` burns `d / mpg` gallons and fails with
`FuelExhausted` rather than going negative. -/
def consume (d : ℚ) (v : VehicleState) : Except RouteError VehicleState :=
  if v.fuel - d / v.mpg < 0 then .error .FuelExhausted
  else .ok { v with fuel := v.fuel - d / v.mpg }

/-- Result of a refuel: the updated vehicle plus the excess that did not fit
in the tank (reported, never an error, per spec section 4.3). -/
structure RefuelResult where
  state : VehicleState
  excess : ℚ
deriving DecidableEq, Repr

/-- Modelled from the spec (section 4.3, `refuel`; absent from `src/`):
adds `amount` gallons, silently capping at tank capacity. -/
def refuel (v : VehicleState) (amount : ℚ) : RefuelResult :=
  let f := v.fuel + amount
  if v.tank < f then ⟨{ v with fuel := v.tank }, f - v.tank⟩
  else ⟨{ v with fuel := f }, 0⟩

/-- A traffic-condition record, translated from the `TrafficCondition` table
in `src/app/models.py` (timestamps embedded as rational minutes). -/
structure TrafficCondition where
  startLatitude : ℚ
  startLongitude : ℚ
  endLatitude : ℚ
  endLongitude : ℚ
  normalTravelTimeMinutes : ℤ
  currentTravelTimeMinutes : ℤ
  trafficFactor : ℚ
  trafficLevel : String
  dataTimestamp : ℚ
  expiresAt : ℚ
deriving DecidableEq, Repr

/-- Modelled from the spec (section 4.2; absent from `src/`): a point lies in
the condition segment bounding box, expanded by a tolerance radius `tol`. -/
def inConditionBox (c : TrafficCondition) (tol : ℚ) (p : Location) : Bool :=
  decide (min c.startLatitude c.endLatitude - tol ≤ p.lat) &&
  decide (p.lat ≤ max c.startLatitude c.endLatitude + tol) &&
  decide (min c.startLongitude c.endLongitude - tol ≤ p.lon) &&
  decide (p.lon ≤ max c.startLongitude c.endLongitude + tol)

/-- Modelled from the spec (section 4.2; absent from `src/`): a condition
overlaps a leg when either leg endpoint falls in its expanded bounding box. -/
def overlapsLeg (c : TrafficCondition) (tol : ℚ) (o d : Location) : Bool :=
  inConditionBox c tol o || inConditionBox c tol d

/-- Modelled from the spec (sections 3 and 4.2; absent from `src/`): a
condition applies to a leg at time `t` only while `t < expires_at` and only
if its segment overlaps the leg. -/
def applicableCondition (c : TrafficCondition) (t tol : ℚ) (o d : Location) : Bool :=
  decide (t < c.expiresAt) && overlapsLeg c tol o d

/-- Modelled from the spec (section 4.2, `effectiveMultiplier`; absent from
`src/`): the maximum `traffic_factor` among applicable conditions, or 1 when
none apply; matching factors are never averaged. -/
def effectiveMultiplier (tol : ℚ) (o d : Location) (t : ℚ)
    (conds : List TrafficCondition) : ℚ :=
  match (conds.filter (fun c => applicableCondition c t tol o d)).map
      TrafficCondition.trafficFactor with
  | [] => 1
  | f :: fs => fs.foldl max f

/-- A station-rating submission, translated from `StationRatingCreate` in
`src/app/models.py` (the non-persistent request schema). -/
structure StationRatingCreate where
  station_id : ℤ
  rating : ℤ
  review : Option String
  fuel_quality : Option ℤ
  service_quality : Option ℤ
  cleanliness : Option ℤ
  price_rating : Option ℤ
deriving DecidableEq, Repr

/-- The `ge=1, le=5` field constraint of the rating columns. -/
def ratingInRange (n : ℤ) : Bool := decide (1 ≤ n) && decide (n ≤ 5)

/-- An optional category sub-rating is accepted when absent or in range. -/
def optRatingOk : Option ℤ → Bool
  | none => true
  | some n => ratingInRange n

/-- Whole-record validation for `StationRatingCreate`, translated from the
field constraints in `src/app/models.py` (rating bounds `ge=1, le=5` on the
overall rating and each category, `max_length=1000` on the review text). -/
def validStationRatingCreate (r : StationRatingCreate) : Bool :=
  ratingInRange r.rating &&
  (match r.review with
   | none => true
   | some s => decide (s.length ≤ 1000)) &&
  optRatingOk r.fuel_quality &&
  optRatingOk r.service_quality &&
  optRatingOk r.cleanliness &&
  optRatingOk r.price_rating

/-- Constructing a rating record at the public interface: validation either
accepts the record unchanged or rejects it, mirroring schema validation on
`StationRatingCreate`. -/
def mkStationRatingCreate (r : StationRatingCreate) : Option StationRatingCreate :=
  if validStationRatingCreate r then some r else none

/-- Modelled from the spec (section 4.1, `distance`; absent from `src/`):
haversine great-circle distance in miles between two valid locations,
using an Earth radius of 3959 miles. -/
noncomputable def haversineMiles (a b : Location) : ℝ :=
  let rad : ℚ → ℝ := fun q => (q : ℝ) * Real.pi / 180
  let lat1 := rad a.lat
  let lat2 := rad b.lat
  let dLat := rad (b.lat - a.lat)
  let dLon := rad (b.lon - a.lon)
  let h := Real.sin (dLat / 2) ^ 2 +
    Real.cos lat1 * Real.cos lat2 * Real.sin (dLon / 2) ^ 2
  2 * 3959 * Real.arcsin (Real.sqrt h)

/-- Modelled from the spec (section 4.1, `distance`; absent from `src/`):
the Geo/Distance Utility entry point, failing with `InvalidCoordinate` when
either coordinate is out of range. -/
noncomputable def distance (a b : Location) : Except RouteError ℝ :=
  if validLocB a && validLocB b then .ok (haversineMiles a b)
  else .error .InvalidCoordinate

/-- Modelled from the spec (section 4.1, `baseTravelTime`; absent from
`src/`): travel time in minutes at an assumed speed. -/
def baseTravelTime (speed d : ℚ) : ℚ := d / speed * 60

/-- Configuration constants of the optimizer named by the spec: the assumed
speed (section 4.1, default 45 mph), the traffic bounding-box tolerance
radius (section 4.2, about one mile in degrees) and the refuel safety margin
in gallons (section 4.4). -/
structure OptimizerConfig where
  assumedSpeedMph : ℚ
  trafficTolerance : ℚ
  safetyMarginGallons : ℚ
deriving DecidableEq, Repr

/-- Default configuration from the spec's example constants. -/
def defaultConfig : OptimizerConfig :=
  { assumedSpeedMph := 45, trafficTolerance := 1 / 69, safetyMarginGallons := 1 / 2 }

/-- The relative epsilon of the tie-break rule (spec section 4.4, item 4). -/
def epsRel : ℚ := 1 / 1000000

/-- Two costs are equal within the relative epsilon of the tie-break rule. -/
def approxEqB (a b : ℚ) : Bool := decide (|a - b| ≤ epsRel * max |a| |b|)

/-- Strict lexicographic comparison of candidate-identifier sequences, used
by the tie-break rule (spec section 4.4, item 4). -/
def lexLtIds : List ℕ → List ℕ → Bool
  | [], [] => false
  | [], _ :: _ => true
  | _ :: _, [] => false
  | a :: as, b :: bs => decide (a < b) || (decide (a = b) && lexLtIds as bs)

/-- Of a nonempty collection, the element whose key is lexicographically
least (the first such, scanning left to right). -/
def selectLexMin {α : Type} (key : α → List ℕ) (t : α) (ts : List α) : α :=
  ts.foldl (fun best o => if lexLtIds (key o) (key best) then o else best) t

/-- Minimum cost over a nonempty collection. -/
def minListCost {α : Type} (cost : α → ℚ) (x : α) (xs : List α) : ℚ :=
  (xs.map cost).foldl min (cost x)

/-- Modelled from the spec (section 4.4, items 1 and 4; absent from `src/`):
among the candidate orderings, those whose cost is within the relative
epsilon of the minimum tie, and of the ties the one with the least
candidate-identifier sequence is chosen. -/
def pickBest {α : Type} (cost : α → ℚ) (key : α → List ℕ) : List α → Option α
  | [] => none
  | x :: xs =>
    match (x :: xs).filter (fun o => approxEqB (cost o) (minListCost cost x xs)) with
    | [] => none
    | t :: ts => some (selectLexMin key t ts)

/-- A station candidate supplied to the optimizer (spec sections 3 and 4.4):
identifier, location, available fuel types with price per gallon (the
`FuelPrice` records of `src/app/models.py`), and the required fuel types for
the stop (`fuel_types_needed` of `RouteStopCreate`). -/
structure Candidate where
  id : ℕ
  loc : Location
  fuels : List (FuelType × ℚ)
  needed : List FuelType
deriving DecidableEq, Repr

/-- Modelled from the spec (section 4.4, item 3; absent from `src/`): a
station is a refueling opportunity when it carries a needed fuel type; a
stop with no stated requirement is unrestricted. -/
def carriesNeededFuel (c : Candidate) : Bool :=
  c.needed.isEmpty || c.needed.any (fun f => c.fuels.any (fun p => decide (p.1 = f)))

/-- Modelled from the spec (section 4.4, item 2; absent from `src/`): the
price per gallon of the cheapest required fuel type available at the stop
(cheapest of all available types when no requirement is stated; 0 when the
station sells nothing usable). -/
def cheapestNeededPrice (c : Candidate) : ℚ :=
  let rel := if c.needed.isEmpty then c.fuels
    else c.fuels.filter (fun p => c.needed.any (fun f => decide (p.1 = f)))
  match rel.map Prod.snd with
  | [] => 0
  | p :: ps => ps.foldl min p

/-- The optimizer's input, mirroring `RouteOptimizationRequest` in
`src/app/models.py` (station ids resolved to candidate records, locations as
coordinate pairs, the three optional vehicle fields bundled when all are
given) together with the optional traffic-condition records of spec
section 6. -/
structure Request where
  start : Location
  endLoc : Option Location
  stations : List Candidate
  criteria : String
  vehicle : Option VehicleState
  departure : Option ℚ
  conditions : List TrafficCondition
deriving DecidableEq, Repr

/-- The closed criterion enumeration of spec section 9. -/
inductive Crit where
  | dist
  | time
  | price
deriving DecidableEq, Repr

/-- Modelled from the spec (sections 6 and 9; absent from `src/`): the
free-text `optimization_criteria` field is parsed at the core boundary and
unrecognized values are rejected, never defaulted. -/
def parseCriterion : String → Option Crit
  | "distance" => some .dist
  | "time" => some .time
  | "price" => some .price
  | _ => none

/-- Every coordinate of the request is in range (spec section 4.1, the
`InvalidCoordinate` propagation of section 4.4). -/
def allCoordsValid (req : Request) : Bool :=
  validLocB req.start &&
  (match req.endLoc with
   | none => true
   | some e => validLocB e) &&
  req.stations.all (fun c => validLocB c.loc)

/-- The legs of an ordering: consecutive pairs from the current position
through the ordered stops to the optional end location (spec section 3). -/
def legsFrom : Location → List Candidate → Option Location → List (Location × Location)
  | _, [], none => []
  | pos, [], some e => [(pos, e)]
  | pos, c :: rest, endLoc => (pos, c.loc) :: legsFrom c.loc rest endLoc

/-- Total distance of an ordering: the sum of its leg distances. -/
def routeDistance (dist : Location → Location → ℚ) (pos : Location)
    (order : List Candidate) (endLoc : Option Location) : ℚ :=
  ((legsFrom pos order endLoc).map (fun l => dist l.1 l.2)).sum

/-- Traffic-adjusted travel time of one leg departing at time `t`. -/
def legTime (cfg : OptimizerConfig) (dist : Location → Location → ℚ)
    (conds : List TrafficCondition) (o d : Location) (t : ℚ) : ℚ :=
  baseTravelTime cfg.assumedSpeedMph (dist o d) *
    effectiveMultiplier cfg.trafficTolerance o d t conds

/-- Modelled from the spec (section 4.4, items 2 and 5; absent from `src/`):
total traffic-adjusted travel time of an ordering, the departure time
advancing along the path so each leg is priced at the time it is driven. -/
def routeTimeFrom (cfg : OptimizerConfig) (dist : Location → Location → ℚ)
    (conds : List TrafficCondition) : ℚ → Location → List Candidate → Option Location → ℚ
  | _, _, [], none => 0
  | t, pos, [], some e => legTime cfg dist conds pos e t
  | t, pos, c :: rest, endLoc =>
    let lt := legTime cfg dist conds pos c.loc t
    lt + routeTimeFrom cfg dist conds (t + lt) c.loc rest endLoc

/-- Modelled from the spec (section 4.4, item 2; absent from `src/`): the
estimated purchase at a stop reached with vehicle state `v` - enough to
cover the next leg plus the safety margin, never negative, capped at tank
capacity. -/
def purchaseAmount (cfg : OptimizerConfig) (v : VehicleState) (nextLegDist : ℚ) : ℚ :=
  max 0 (min (nextLegDist / v.mpg + cfg.safetyMarginGallons - v.fuel) (v.tank - v.fuel))

/-- Distance of the leg leaving a stop, toward the next stop or the end. -/
def nextLegDistance (dist : Location → Location → ℚ) (c : Candidate)
    (rest : List Candidate) (endLoc : Option Location) : ℚ :=
  match rest with
  | r :: _ => dist c.loc r.loc
  | [] =>
    match endLoc with
    | some e => dist c.loc e
    | none => 0

/-- Modelled from the spec (section 4.4, item 2; absent from `src/`): the
total estimated fuel spending of an ordering, simulating the vehicle state
by value along the path; 0 contribution throughout when no vehicle state was
supplied. -/
def purchasesFrom (cfg : OptimizerConfig) (dist : Location → Location → ℚ) :
    Option VehicleState → Location → List Candidate → Option Location → ℚ
  | _, _, [], _ => 0
  | none, _, c :: rest, endLoc => purchasesFrom cfg dist none c.loc rest endLoc
  | some v, pos, c :: rest, endLoc =>
    let v1 : VehicleState := { v with fuel := v.fuel - dist pos c.loc / v.mpg }
    let amt := if carriesNeededFuel c then
        purchaseAmount cfg v1 (nextLegDistance dist c rest endLoc) else 0
    cheapestNeededPrice c * amt +
      purchasesFrom cfg dist (some { v1 with fuel := v1.fuel + amt }) c.loc rest endLoc

/-- Modelled from the spec (section 4.4, item 2; absent from `src/`): cost of
a candidate ordering under the chosen criterion. -/
def orderCost (cfg : OptimizerConfig) (dist : Location → Location → ℚ)
    (req : Request) (crit : Crit) (order : List Candidate) : ℚ :=
  match crit with
  | .dist => routeDistance dist req.start order req.endLoc
  | .time => routeTimeFrom cfg dist req.conditions (req.departure.getD 0)
      req.start order req.endLoc
  | .price => routeDistance dist req.start order req.endLoc +
      purchasesFrom cfg dist req.vehicle req.start order req.endLoc

/-- Modelled from the spec (section 4.4, item 3; absent from `src/`): an
ordering is drivable for a supplied vehicle state when every leg passes
`canTraverse` under the running state, refueling (to capacity, the most
permissive policy) only at stations carrying a needed fuel type. -/
def feasibleFrom (dist : Location → Location → ℚ) :
    VehicleState → Location → List Candidate → Option Location → Bool
  | _, _, [], none => true
  | v, pos, [], some e => canTraverse (dist pos e) v
  | v, pos, c :: rest, endLoc =>
    canTraverse (dist pos c.loc) v &&
      (let v1 : VehicleState := { v with fuel := v.fuel - dist pos c.loc / v.mpg }
       let v2 := if carriesNeededFuel c then { v1 with fuel := v1.tank } else v1
       feasibleFrom dist v2 c.loc rest endLoc)

/-- All ways to insert an element into a list, first to last position. -/
def insertEverywhere {α : Type} (a : α) : List α → List (List α)
  | [] => [[a]]
  | b :: bs => (a :: b :: bs) :: (insertEverywhere a bs).map (fun l => b :: l)

/-- All permutations of a list, by successive insertion (the exact-search
enumeration of spec section 4.4, item 1). -/
def allPermutations {α : Type} : List α → List (List α)
  | [] => [[]]
  | x :: xs => (allPermutations xs).flatMap (insertEverywhere x)

/-- Modelled from the spec (section 4.4, items 1 and 3; absent from `src/`):
the orderings the search considers - every permutation of the candidates,
pruned to the drivable ones when a vehicle state was supplied. -/
def considered (dist : Location → Location → ℚ) (req : Request) :
    List (List Candidate) :=
  match req.vehicle with
  | none => allPermutations req.stations
  | some v => (allPermutations req.stations).filter
      (fun o => feasibleFrom dist v req.start o req.endLoc)

/-- The candidate-identifier sequence of an ordering (tie-break key). -/
def orderKey (o : List Candidate) : List ℕ := o.map Candidate.id

/-- One stop of the produced route plan, mirroring the computed fields of
`RouteStop` in `src/app/models.py` (`stop_order`, `distance_from_previous`,
`travel_time_minutes`, `arrival_time`, `estimated_fuel_amount`). -/
structure RouteStopOut where
  stationId : ℕ
  stopOrder : ℕ
  distanceFromPrevious : ℚ
  travelTimeMinutes : ℚ
  arrivalTime : ℚ
  estimatedFuelAmount : ℚ
  legCost : ℚ
deriving DecidableEq, Repr

/-- The final leg from the last stop to the supplied end location, when one
exists; it is part of the route but not a station stop. -/
structure EndLegOut where
  distanceMiles : ℚ
  travelTimeMinutes : ℚ
deriving DecidableEq, Repr

/-- The produced route plan, mirroring the statistics fields of `Route` in
`src/app/models.py` (`total_distance_miles`, `estimated_duration_minutes`,
`estimated_fuel_cost`) over the ordered stop list. -/
structure RoutePlan where
  stops : List RouteStopOut
  endLeg : Option EndLegOut
  totalDistanceMiles : ℚ
  estimatedDurationMinutes : ℚ
  estimatedFuelCost : ℚ
deriving DecidableEq, Repr

/-- Modelled from the spec (section 4.5; absent from `src/`): the Plan
Assembler's walk along the chosen ordering, producing the per-stop records
with 1-based contiguous stop orders, cumulative arrival times and fuel
purchases, plus the final leg toward the optional end location. -/
def assembleFrom (cfg : OptimizerConfig) (dist : Location → Location → ℚ)
    (conds : List TrafficCondition) :
    ℕ → ℚ → Location → Option VehicleState → List Candidate → Option Location →
      List RouteStopOut × Option EndLegOut
  | _, _, _, _, [], none => ([], none)
  | _, t, pos, _, [], some e =>
    ([], some { distanceMiles := dist pos e,
                travelTimeMinutes := legTime cfg dist conds pos e t })
  | idx, t, pos, vOpt, c :: rest, endLoc =>
    let d := dist pos c.loc
    let lt := legTime cfg dist conds pos c.loc t
    let av : ℚ × Option VehicleState :=
      match vOpt with
      | none => (0, none)
      | some v =>
        let v1 : VehicleState := { v with fuel := v.fuel - d / v.mpg }
        let amt := if carriesNeededFuel c then
            purchaseAmount cfg v1 (nextLegDistance dist c rest endLoc) else 0
        (amt, some { v1 with fuel := v1.fuel + amt })
    let stop : RouteStopOut :=
      { stationId := c.id, stopOrder := idx, distanceFromPrevious := d,
        travelTimeMinutes := lt, arrivalTime := t + lt,
        estimatedFuelAmount := av.1, legCost := cheapestNeededPrice c * av.1 }
    let tl := assembleFrom cfg dist conds (idx + 1) (t + lt) c.loc av.2 rest endLoc
    (stop :: tl.1, tl.2)

/-- Modelled from the spec (section 4.5; absent from `src/`): the Plan
Assembler, converting a chosen ordering into the externally consumed plan
with route totals. -/
def assemble (cfg : OptimizerConfig) (dist : Location → Location → ℚ)
    (req : Request) (order : List Candidate) : RoutePlan :=
  let t0 := req.departure.getD 0
  let sp := assembleFrom cfg dist req.conditions 1 t0 req.start req.vehicle
    order req.endLoc
  { stops := sp.1, endLeg := sp.2,
    totalDistanceMiles := routeDistance dist req.start order req.endLoc,
    estimatedDurationMinutes := routeTimeFrom cfg dist req.conditions t0
      req.start order req.endLoc,
    estimatedFuelCost := purchasesFrom cfg dist req.vehicle req.start order
      req.endLoc }

/-- Modelled from the spec (section 4.4; absent from `src/`): the route
optimizer.  It parses the criterion at the boundary, validates coordinates,
serves the zero-candidate case as a direct start-to-end leg, and otherwise
searches the drivable permutations for the best-cost ordering under the
tie-break rule, failing with `NoFeasibleRoute` when the search space is
empty.  The leg metric `dist` is the Geo/Distance Utility supplied as a
function. -/
def optimize (cfg : OptimizerConfig) (dist : Location → Location → ℚ)
    (req : Request) : Except RouteError RoutePlan :=
  match parseCriterion req.criteria with
  | none => .error .InvalidRouteRequest
  | some crit =>
    if allCoordsValid req then
      match req.stations with
      | [] =>
        match req.endLoc with
        | some _ => .ok (assemble cfg dist req [])
        | none => .error .InvalidRouteRequest
      | _ :: _ =>
        match pickBest (orderCost cfg dist req crit) orderKey
            (considered dist req) with
        | none => .error .NoFeasibleRoute
        | some best => .ok (assemble cfg dist req best)
    else .error .InvalidCoordinate

instance {ε α : Type} [DecidableEq ε] [DecidableEq α] :
    DecidableEq (Except ε α) := fun a b =>
  match a, b with
  | .error e1, .error e2 =>
    if h : e1 = e2 then isTrue (by rw [h])
    else isFalse (by intro hc; injection hc with h2; exact h h2)
  | .error _, .ok _ => isFalse (by intro hc; cases hc)
  | .ok _, .error _ => isFalse (by intro hc; cases hc)
  | .ok a1, .ok a2 =>
    if h : a1 = a2 then isTrue (by rw [h])
    else isFalse (by intro hc; injection hc with h2; exact h h2)

/-- The plan inside an `ok` result, or an empty placeholder. -/
def planOf (e : Except RouteError RoutePlan) : RoutePlan :=
  e.toOption.getD { stops := [], endLeg := none, totalDistanceMiles := 0,
                    estimatedDurationMinutes := 0, estimatedFuelCost := 0 }

/-- A concrete taxicab metric on coordinate pairs, used to instantiate the
optimizer's distance parameter on concrete examples. -/
def taxiDist (a b : Location) : ℚ := |a.lat - b.lat| + |a.lon - b.lon|

lemma left_le_foldl_max (l : List ℚ) (a : ℚ) : a ≤ l.foldl max a := by
  induction l generalizing a with
  | nil => exact le_refl a
  | cons b l ih => exact le_trans (le_max_left a b) (ih (max a b))

lemma foldl_max_le_of_mem {l : List ℚ} {x : ℚ} (a : ℚ) (h : x ∈ l) :
    x ≤ l.foldl max a := by
  induction l generalizing a with
  | nil => cases h
  | cons b l ih =>
    rcases List.mem_cons.mp h with rfl | hx
    · exact le_trans (le_max_right a x) (left_le_foldl_max l (max a x))
    · exact ih (max a b) hx

lemma foldl_max_eq_or_mem (l : List ℚ) (a : ℚ) :
    l.foldl max a = a ∨ l.foldl max a ∈ l := by
  induction l generalizing a with
  | nil => exact Or.inl rfl
  | cons b l ih =>
    rcases ih (max a b) with h | h
    · rcases max_choice a b with hm | hm
      · exact Or.inl (by rw [List.foldl_cons, h, hm])
      · exact Or.inr (by rw [List.foldl_cons, h, hm]; exact List.mem_cons_self b l)
    · exact Or.inr (List.mem_cons_of_mem b h)

/-- C5: for every leg, time and condition list, `effectiveMultiplier` returns
the maximum `traffic_factor` among the conditions that are unexpired at that
time and overlap the leg, returns exactly 1 when no condition matches (never
an average), and a condition whose expiry lies before the query time never
changes the result. -/
theorem effectiveMultiplier_spec (tol : ℚ) (o d : Location) (t : ℚ)
    (conds : List TrafficCondition) :
    (conds.filter (fun c => applicableCondition c t tol o d) = [] →
      effectiveMultiplier tol o d t conds = 1) ∧
    (∀ c ∈ conds.filter (fun c => applicableCondition c t tol o d),
      c.trafficFactor ≤ effectiveMultiplier tol o d t conds) ∧
    (conds.filter (fun c => applicableCondition c t tol o d) ≠ [] →
      ∃ c ∈ conds.filter (fun c => applicableCondition c t tol o d),
        effectiveMultiplier tol o d t conds = c.trafficFactor) ∧
    (∀ c, c.expiresAt < t →
      effectiveMultiplier tol o d t (c :: conds) =
        effectiveMultiplier tol o d t conds) := by
  refine ⟨?_, ?_, ?_, ?_⟩
  · intro h
    unfold effectiveMultiplier
    rw [h]
    rfl
  · intro c hc
    unfold effectiveMultiplier
    rcases hf : (conds.filter (fun c => applicableCondition c t tol o d)).map
        TrafficCondition.trafficFactor with _ | ⟨f, fs⟩
    · rw [List.map_eq_nil_iff] at hf
      rw [hf] at hc
      cases hc
    · have hmem : c.trafficFactor ∈ f :: fs := by
        rw [← hf]
        exact List.mem_map_of_mem TrafficCondition.trafficFactor hc
      rcases List.mem_cons.mp hmem with h1 | h1
      · rw [h1]
        exact left_le_foldl_max fs f
      · exact foldl_max_le_of_mem f h1
  · intro h
    unfold effectiveMultiplier
    rcases hf : (conds.filter (fun c => applicableCondition c t tol o d)).map
        TrafficCondition.trafficFactor with _ | ⟨f, fs⟩
    · rw [List.map_eq_nil_iff] at hf
      exact absurd hf h
    · have : fs.foldl max f ∈ f :: fs := by
        rcases foldl_max_eq_or_mem fs f with h1 | h1
        · rw [h1]; exact List.mem_cons_self f fs
        · exact List.mem_cons_of_mem f h1
      have : fs.foldl max f ∈ (conds.filter
          (fun c => applicableCondition c t tol o d)).map
          TrafficCondition.trafficFactor := by rw [hf]; exact this
      rcases List.mem_map.mp this with ⟨c, hc, hfac⟩
      exact ⟨c, hc, hfac.symm⟩
  · intro c hexp
    have happ : applicableCondition c t tol o d = false := by
      unfold applicableCondition
      have : decide (t < c.expiresAt) = false := by
        simp only [decide_eq_false_iff_not, not_lt]
        exact le_of_lt hexp
      rw [this, Bool.false_and]
    unfold effectiveMultiplier
    rw [List.filter_cons_of_neg]
    rw [happ]
    exact Bool.false_ne_true

lemma refuel_state_fuel (v : VehicleState) (a : ℚ) :
    (refuel v a).state.fuel = min (v.fuel + a) v.tank := by
  unfold refuel
  by_cases h : v.tank < v.fuel + a
  · rw [if_pos h]
    exact (min_eq_right (le_of_lt h)).symm
  · rw [if_neg h]
    exact (min_eq_left (le_of_not_lt h)).symm

lemma refuel_state_tank (v : VehicleState) (a : ℚ) :
    (refuel v a).state.tank = v.tank := by
  unfold refuel
  by_cases h : v.tank < v.fuel + a
  · rw [if_pos h]
  · rw [if_neg h]

/-- C9: the vehicle-state invariant 0 ≤ fuel ≤ tank is preserved: `consume`
decreases the level by distance / mpg and fails with `FuelExhausted` exactly
when that would go negative, and `refuel` adds the amount capped at tank
capacity, never erroring. -/
theorem fuelModel_invariant (v : VehicleState) (d amount : ℚ)
    (hv : validVehicle v) (hd : 0 ≤ d) (ha : 0 ≤ amount) :
    (∀ v2, consume d v = .ok v2 →
      v2.fuel = v.fuel - d / v.mpg ∧ v2.tank = v.tank ∧
      0 ≤ v2.fuel ∧ v2.fuel ≤ v2.tank) ∧
    (consume d v = .error .FuelExhausted ↔ v.fuel - d / v.mpg < 0) ∧
    ((refuel v amount).state.fuel = min (v.fuel + amount) v.tank ∧
      (refuel v amount).state.tank = v.tank ∧
      0 ≤ (refuel v amount).state.fuel ∧
      (refuel v amount).state.fuel ≤ (refuel v amount).state.tank) := by
  obtain ⟨hmpg, htank, hfuel, hcap⟩ := hv
  have hdiv : 0 ≤ d / v.mpg := div_nonneg hd hmpg
  refine ⟨?_, ?_, ?_⟩
  · intro v2 h
    unfold consume at h
    by_cases hneg : v.fuel - d / v.mpg < 0
    · rw [if_pos hneg] at h
      cases h
    · rw [if_neg hneg] at h
      cases h
      refine ⟨rfl, rfl, le_of_not_lt hneg, ?_⟩
      calc v.fuel - d / v.mpg ≤ v.fuel := by linarith
        _ ≤ v.tank := hcap
  · unfold consume
    by_cases hneg : v.fuel - d / v.mpg < 0
    · rw [if_pos hneg]
      constructor
      · intro _
        exact hneg
      · intro _
        rfl
    · rw [if_neg hneg]
      constructor
      · intro h
        cases h
      · intro h
        exact absurd h hneg
  · rw [refuel_state_fuel, refuel_state_tank]
    rcases le_total (v.fuel + amount) v.tank with hle | hle
    · rw [min_eq_left hle]
      exact ⟨rfl, rfl, by linarith, hle⟩
    · rw [min_eq_right hle]
      exact ⟨rfl, rfl, htank, le_refl _⟩

/-- C9 witness: the invariant instantiated at a concrete vehicle, leg and
purchase. -/
theorem fuelModel_invariant_witness :
    (∀ v2, consume 20 ⟨10, 15, 8⟩ = .ok v2 →
      v2.fuel = (8 : ℚ) - 20 / 10 ∧ v2.tank = 15 ∧ 0 ≤ v2.fuel ∧ v2.fuel ≤ v2.tank) ∧
    (consume 20 ⟨10, 15, 8⟩ = .error .FuelExhausted ↔ (8 : ℚ) - 20 / 10 < 0) ∧
    ((refuel ⟨10, 15, 8⟩ 3).state.fuel = min ((8 : ℚ) + 3) 15 ∧
      (refuel ⟨10, 15, 8⟩ 3).state.tank = 15 ∧
      0 ≤ (refuel ⟨10, 15, 8⟩ 3).state.fuel ∧
      (refuel ⟨10, 15, 8⟩ 3).state.fuel ≤ (refuel ⟨10, 15, 8⟩ 3).state.tank) :=
  fuelModel_invariant ⟨10, 15, 8⟩ 20 3 (by decide) (by decide) (by decide)

/-- C10: every rating record accepted at the public interface has its overall
rating and each present optional category sub-rating inside 1..5, and a
record whose overall rating is out of range is rejected outright. -/
theorem stationRating_bounds (r r2 : StationRatingCreate)
    (h : mkStationRatingCreate r = some r2) :
    (1 ≤ r2.rating ∧ r2.rating ≤ 5) ∧
    (∀ v, r2.fuel_quality = some v → 1 ≤ v ∧ v ≤ 5) ∧
    (∀ v, r2.service_quality = some v → 1 ≤ v ∧ v ≤ 5) ∧
    (∀ v, r2.cleanliness = some v → 1 ≤ v ∧ v ≤ 5) ∧
    (∀ v, r2.price_rating = some v → 1 ≤ v ∧ v ≤ 5) ∧
    (∀ q : StationRatingCreate, ratingInRange q.rating = false →
      mkStationRatingCreate q = none) := by
  unfold mkStationRatingCreate at h
  by_cases hv : validStationRatingCreate r = true
  · rw [if_pos hv] at h
    cases h
    unfold validStationRatingCreate at hv
    simp only [Bool.and_eq_true] at hv
    obtain ⟨⟨⟨⟨⟨hrat, _⟩, hfq⟩, hsq⟩, hcl⟩, hpr⟩ := hv
    have hrange : ∀ n : ℤ, ratingInRange n = true → 1 ≤ n ∧ n ≤ 5 := by
      intro n hn
      unfold ratingInRange at hn
      simp only [Bool.and_eq_true, decide_eq_true_eq] at hn
      exact hn
    have hopt : ∀ (o : Option ℤ), optRatingOk o = true →
        ∀ v, o = some v → 1 ≤ v ∧ v ≤ 5 := by
      intro o ho v hov
      subst hov
      exact hrange v ho
    refine ⟨hrange _ hrat, hopt _ hfq, hopt _ hsq, hopt _ hcl, hopt _ hpr, ?_⟩
    intro q hq
    unfold mkStationRatingCreate
    rw [if_neg]
    intro hvq
    unfold validStationRatingCreate at hvq
    simp only [Bool.and_eq_true] at hvq
    rw [hvq.1.1.1.1.1] at hq
    cases hq
  · rw [if_neg hv] at h
    cases h

/-- C10 witness: a concrete in-range rating record is accepted with all its
fields inside the bounds. -/
theorem stationRating_bounds_witness :
    ((1 : ℤ) ≤ (4 : ℤ) ∧ (4 : ℤ) ≤ 5) ∧
    (∀ v, (some 5 : Option ℤ) = some v → 1 ≤ v ∧ v ≤ 5) ∧
    (∀ v, (some 3 : Option ℤ) = some v → 1 ≤ v ∧ v ≤ 5) ∧
    (∀ v, (none : Option ℤ) = some v → 1 ≤ v ∧ v ≤ 5) ∧
    (∀ v, (some 2 : Option ℤ) = some v → 1 ≤ v ∧ v ≤ 5) ∧
    (∀ q : StationRatingCreate, ratingInRange q.rating = false →
      mkStationRatingCreate q = none) :=
  stationRating_bounds ⟨7, 4, none, some 5, some 3, none, some 2⟩
    ⟨7, 4, none, some 5, some 3, none, some 2⟩ (by decide)

/-- C6: a request whose optimization criterion parses to none of the three
closed values is rejected with `InvalidRouteRequest`, never served under a
substituted default. -/
theorem invalidCriterion_rejected (cfg : OptimizerConfig)
    (dist : Location → Location → ℚ) (req : Request)
    (h : parseCriterion req.criteria = none) :
    optimize cfg dist req = .error .InvalidRouteRequest := by
  unfold optimize
  rw [h]

/-- C6 witness: a concrete request asking for the unrecognized criterion
fastest is rejected. -/
theorem invalidCriterion_rejected_witness :
    optimize defaultConfig taxiDist
      { start := ⟨0, 0⟩, endLoc := none,
        stations := [⟨1, ⟨0, 1⟩, [(FuelType.regular, 3)], []⟩],
        criteria := "fastest", vehicle := none, departure := none,
        conditions := [] } = .error .InvalidRouteRequest :=
  invalidCriterion_rejected defaultConfig taxiDist _ (by rfl)

/-- C8: `distance` fails with `InvalidCoordinate` exactly when a latitude
falls outside [-90, 90] or a longitude outside [-180, 180], and on in-range
inputs returns the haversine great-circle distance (being a plain function
of its two arguments, it is deterministic and pure). -/
theorem distance_validation (a b : Location) :
    (distance a b = .error .InvalidCoordinate ↔
      ¬(((-90 ≤ a.lat ∧ a.lat ≤ 90) ∧ (-180 ≤ a.lon ∧ a.lon ≤ 180)) ∧
        ((-90 ≤ b.lat ∧ b.lat ≤ 90) ∧ (-180 ≤ b.lon ∧ b.lon ≤ 180)))) ∧
    (distance a b = .ok (haversineMiles a b) ↔
      (((-90 ≤ a.lat ∧ a.lat ≤ 90) ∧ (-180 ≤ a.lon ∧ a.lon ≤ 180)) ∧
        ((-90 ≤ b.lat ∧ b.lat ≤ 90) ∧ (-180 ≤ b.lon ∧ b.lon ≤ 180)))) := by
  have hiff : (validLocB a && validLocB b) = true ↔
      (((-90 ≤ a.lat ∧ a.lat ≤ 90) ∧ (-180 ≤ a.lon ∧ a.lon ≤ 180)) ∧
        ((-90 ≤ b.lat ∧ b.lat ≤ 90) ∧ (-180 ≤ b.lon ∧ b.lon ≤ 180))) := by
    unfold validLocB validLatB validLonB
    simp only [Bool.and_eq_true, decide_eq_true_eq, and_assoc]
  unfold distance
  by_cases h : (validLocB a && validLocB b) = true
  · rw [if_pos h]
    constructor
    · constructor
      · intro hok
        cases hok
      · intro hcontra
        exact absurd (hiff.mp h) hcontra
    · constructor
      · intro _
        exact hiff.mp h
      · intro _
        rfl
  · rw [if_neg h]
    constructor
    · constructor
      · intro _
        intro hval
        exact h (hiff.mpr hval)
      · intro _
        rfl
    · constructor
      · intro herr
        cases herr
      · intro hval
        exact absurd (hiff.mpr hval) h

lemma foldl_min_le_init (l : List ℚ) (a : ℚ) : l.foldl min a ≤ a := by
  induction l generalizing a with
  | nil => exact le_refl a
  | cons b l ih => exact le_trans (ih (min a b)) (min_le_left a b)

lemma foldl_min_le_of_mem {l : List ℚ} {x : ℚ} (a : ℚ) (h : x ∈ l) :
    l.foldl min a ≤ x := by
  induction l generalizing a with
  | nil => cases h
  | cons b l ih =>
    rcases List.mem_cons.mp h with rfl | hx
    · exact le_trans (foldl_min_le_init l (min a x)) (min_le_right a x)
    · exact ih (min a b) hx

lemma foldl_min_eq_or_mem (l : List ℚ) (a : ℚ) :
    l.foldl min a = a ∨ l.foldl min a ∈ l := by
  induction l generalizing a with
  | nil => exact Or.inl rfl
  | cons b l ih =>
    rcases ih (min a b) with h | h
    · rcases min_choice a b with hm | hm
      · exact Or.inl (by rw [List.foldl_cons, h, hm])
      · exact Or.inr (by rw [List.foldl_cons, h, hm]; exact List.mem_cons_self b l)
    · exact Or.inr (List.mem_cons_of_mem b h)

lemma minListCost_le {α : Type} (cost : α → ℚ) (x : α) (xs : List α) :
    ∀ y ∈ x :: xs, minListCost cost x xs ≤ cost y := by
  intro y hy
  rcases List.mem_cons.mp hy with rfl | hy
  · exact foldl_min_le_init _ _
  · exact foldl_min_le_of_mem _ (List.mem_map_of_mem cost hy)

lemma minListCost_attained {α : Type} (cost : α → ℚ) (x : α) (xs : List α) :
    ∃ y ∈ x :: xs, cost y = minListCost cost x xs := by
  rcases foldl_min_eq_or_mem (xs.map cost) (cost x) with h | h
  · exact ⟨x, List.mem_cons_self x xs, h.symm⟩
  · rcases List.mem_map.mp h with ⟨y, hy, hcy⟩
    exact ⟨y, List.mem_cons_of_mem x hy, hcy⟩

lemma approxEqB_refl (a : ℚ) : approxEqB a a = true := by
  unfold approxEqB
  simp only [decide_eq_true_eq, sub_self, abs_zero]
  apply mul_nonneg
  · norm_num [epsRel]
  · exact le_trans (abs_nonneg a) (le_max_left _ _)

lemma lexLtIds_irrefl (a : List ℕ) : lexLtIds a a = false := by
  induction a with
  | nil => rfl
  | cons x xs ih => simp [lexLtIds, ih]

lemma lexLtIds_trans : ∀ (a b c : List ℕ), lexLtIds a b = true →
    lexLtIds b c = true → lexLtIds a c = true := by
  intro a
  induction a with
  | nil =>
    intro b c h1 h2
    cases c with
    | nil =>
      cases b with
      | nil => exact h1
      | cons y ys => simp [lexLtIds] at h2
    | cons z zs => rfl
  | cons x xs ih =>
    intro b c h1 h2
    cases b with
    | nil => simp [lexLtIds] at h1
    | cons y ys =>
      cases c with
      | nil => simp [lexLtIds] at h2
      | cons z zs =>
        simp only [lexLtIds, Bool.or_eq_true, Bool.and_eq_true,
          decide_eq_true_eq] at h1 h2 ⊢
        rcases h1 with h1 | ⟨he1, h1⟩
        · rcases h2 with h2 | ⟨he2, h2⟩
          · exact Or.inl (by omega)
          · exact Or.inl (by omega)
        · rcases h2 with h2 | ⟨he2, h2⟩
          · exact Or.inl (by omega)
          · exact Or.inr ⟨by omega, ih ys zs h1 h2⟩

lemma lexLtIds_total : ∀ (a b : List ℕ), lexLtIds a b = false →
    a = b ∨ lexLtIds b a = true := by
  intro a
  induction a with
  | nil =>
    intro b h
    cases b with
    | nil => exact Or.inl rfl
    | cons y ys => simp [lexLtIds] at h
  | cons x xs ih =>
    intro b h
    cases b with
    | nil => exact Or.inr rfl
    | cons y ys =>
      simp only [lexLtIds, Bool.or_eq_false_iff, Bool.and_eq_false_iff,
        decide_eq_false_iff_not] at h
      obtain ⟨hxy, hrest⟩ := h
      by_cases heq : x = y
      · subst heq
        rcases hrest with hne | htail
        · exact absurd rfl hne
        · rcases ih ys htail with rfl | hlt
          · exact Or.inl rfl
          · refine Or.inr ?_
            simp only [lexLtIds, Bool.or_eq_true, Bool.and_eq_true,
              decide_eq_true_eq]
            refine Or.inr ⟨?_, hlt⟩
            trivial
      · refine Or.inr ?_
        simp only [lexLtIds, Bool.or_eq_true, Bool.and_eq_true,
          decide_eq_true_eq]
        exact Or.inl (by omega)

lemma lexLtIds_asymm {a b : List ℕ} (h : lexLtIds a b = true) :
    lexLtIds b a = false := by
  by_contra hcon
  rw [Bool.not_eq_false] at hcon
  have := lexLtIds_trans a b a h hcon
  rw [lexLtIds_irrefl] at this
  cases this

lemma selectLexMin_spec {α : Type} (key : α → List ℕ) :
    ∀ (ts : List α) (t : α),
      selectLexMin key t ts ∈ t :: ts ∧
      ∀ y ∈ t :: ts, lexLtIds (key y) (key (selectLexMin key t ts)) = false := by
  intro ts
  induction ts with
  | nil =>
    intro t
    refine ⟨List.mem_singleton.mpr rfl, ?_⟩
    intro y hy
    rw [List.mem_singleton] at hy
    rw [hy]
    exact lexLtIds_irrefl _
  | cons o ts ih =>
    intro t
    have hstep : selectLexMin key t (o :: ts) =
        selectLexMin key (if lexLtIds (key o) (key t) then o else t) ts := rfl
    by_cases hot : lexLtIds (key o) (key t) = true
    · rw [hstep, if_pos hot]
      obtain ⟨hmem, hmin⟩ := ih o
      refine ⟨List.mem_cons_of_mem t hmem, ?_⟩
      intro y hy
      rcases List.mem_cons.mp hy with rfl | hy2
      · by_contra hcon
        rw [Bool.not_eq_false] at hcon
        have := lexLtIds_trans _ _ _ hot hcon
        rw [hmin o (List.mem_cons_self o ts)] at this
        cases this
      · exact hmin y hy2
    · rw [hstep, if_neg hot]
      rw [Bool.not_eq_true] at hot
      obtain ⟨hmem, hmin⟩ := ih t
      constructor
      · rcases List.mem_cons.mp hmem with h | h
        · rw [h]
          exact List.mem_cons_self t (o :: ts)
        · exact List.mem_cons_of_mem t (List.mem_cons_of_mem o h)
      · intro y hy
        rcases List.mem_cons.mp hy with rfl | hy2
        · exact hmin y (List.mem_cons_self y ts)
        · rcases List.mem_cons.mp hy2 with rfl | hy3
          · rcases lexLtIds_total _ _ hot with heq | hlt
            · rw [heq]
              exact hmin t (List.mem_cons_self t ts)
            · by_contra hcon
              rw [Bool.not_eq_false] at hcon
              have := lexLtIds_trans _ _ _ hlt hcon
              rw [hmin t (List.mem_cons_self t ts)] at this
              cases this
          · exact hmin y (List.mem_cons_of_mem t hy3)

/-- The brute-force minimum cost over a list of candidate orderings. -/
def bruteForceMinCost {α : Type} (cost : α → ℚ) : List α → ℚ
  | [] => 0
  | x :: xs => minListCost cost x xs

lemma pickBest_cons {α : Type} (cost : α → ℚ) (key : α → List ℕ)
    (x : α) (xs : List α) :
    pickBest cost key (x :: xs) =
      match (x :: xs).filter
          (fun o => approxEqB (cost o) (minListCost cost x xs)) with
      | [] => none
      | t :: ts => some (selectLexMin key t ts) := rfl

lemma pickBest_spec {α : Type} (cost : α → ℚ) (key : α → List ℕ)
    (x : α) (xs : List α) (o : α)
    (h : pickBest cost key (x :: xs) = some o) :
    o ∈ x :: xs ∧ approxEqB (cost o) (minListCost cost x xs) = true ∧
    ∀ y ∈ x :: xs, approxEqB (cost y) (minListCost cost x xs) = true →
      lexLtIds (key y) (key o) = false := by
  rw [pickBest_cons] at h
  rcases hf : (x :: xs).filter
      (fun o => approxEqB (cost o) (minListCost cost x xs)) with _ | ⟨t, ts⟩
  · rw [hf] at h
    cases h
  · rw [hf] at h
    simp only [Option.some.injEq] at h
    subst h
    obtain ⟨hmem, hmin⟩ := selectLexMin_spec key ts t
    have hsub : ∀ z ∈ t :: ts, z ∈ x :: xs ∧
        approxEqB (cost z) (minListCost cost x xs) = true := by
      intro z hz
      have hzf : z ∈ (x :: xs).filter
          (fun o => approxEqB (cost o) (minListCost cost x xs)) := by
        rw [hf]
        exact hz
      exact List.mem_filter.mp hzf
    refine ⟨(hsub _ hmem).1, (hsub _ hmem).2, ?_⟩
    intro y hy hyeq
    have hyf : y ∈ t :: ts := by
      rw [← hf]
      exact List.mem_filter.mpr ⟨hy, hyeq⟩
    exact hmin y hyf

lemma optimize_ok_inv (cfg : OptimizerConfig) (dist : Location → Location → ℚ)
    (req : Request) (plan : RoutePlan)
    (h : optimize cfg dist req = .ok plan) :
    ∃ o, plan = assemble cfg dist req o ∧
      (req.stations = [] ∧ o = [] ∨
        ∃ crit, parseCriterion req.criteria = some crit ∧
          pickBest (orderCost cfg dist req crit) orderKey
            (considered dist req) = some o) := by
  unfold optimize at h
  rcases hc : parseCriterion req.criteria with _ | crit
  · simp only [hc] at h
    cases h
  · simp only [hc] at h
    by_cases hcv : allCoordsValid req = true
    · rw [if_pos hcv] at h
      rcases hs : req.stations with _ | ⟨a, l⟩
      · simp only [hs] at h
        rcases he : req.endLoc with _ | e
        · simp only [he] at h
          cases h
        · simp only [he, Except.ok.injEq] at h
          exact ⟨[], h.symm, Or.inl ⟨rfl, rfl⟩⟩
      · simp only [hs] at h
        rcases hp : pickBest (orderCost cfg dist req crit) orderKey
            (considered dist req) with _ | best
        · rw [hp] at h
          cases h
        · rw [hp] at h
          simp only [Except.ok.injEq] at h
          exact ⟨best, h.symm, Or.inr ⟨crit, rfl, hp⟩⟩
    · rw [if_neg hcv] at h
      cases h

lemma assemble_stops (cfg : OptimizerConfig) (dist : Location → Location → ℚ)
    (req : Request) (o : List Candidate) :
    (assemble cfg dist req o).stops =
      (assembleFrom cfg dist req.conditions 1 (req.departure.getD 0) req.start
        req.vehicle o req.endLoc).1 := rfl

lemma assemble_endLeg (cfg : OptimizerConfig) (dist : Location → Location → ℚ)
    (req : Request) (o : List Candidate) :
    (assemble cfg dist req o).endLeg =
      (assembleFrom cfg dist req.conditions 1 (req.departure.getD 0) req.start
        req.vehicle o req.endLoc).2 := rfl

lemma assemble_totalDistance (cfg : OptimizerConfig)
    (dist : Location → Location → ℚ) (req : Request) (o : List Candidate) :
    (assemble cfg dist req o).totalDistanceMiles =
      routeDistance dist req.start o req.endLoc := rfl

/-- Distance carried by the optional final leg of a plan. -/
def endLegDistance : Option EndLegOut → ℚ
  | none => 0
  | some el => el.distanceMiles

lemma assembleFrom_orders (cfg : OptimizerConfig)
    (dist : Location → Location → ℚ) (conds : List TrafficCondition) :
    ∀ (order : List Candidate) (idx : ℕ) (t : ℚ) (pos : Location)
      (vOpt : Option VehicleState) (endLoc : Option Location),
      (assembleFrom cfg dist conds idx t pos vOpt order endLoc).1.map
        RouteStopOut.stopOrder = List.range' idx order.length := by
  intro order
  induction order with
  | nil =>
    intro idx t pos vOpt endLoc
    cases endLoc with
    | none => rfl
    | some e => rfl
  | cons c rest ih =>
    intro idx t pos vOpt endLoc
    simp only [assembleFrom, List.map_cons, List.length_cons, List.range'_succ]
    rw [ih]

lemma assembleFrom_distance (cfg : OptimizerConfig)
    (dist : Location → Location → ℚ) (conds : List TrafficCondition) :
    ∀ (order : List Candidate) (idx : ℕ) (t : ℚ) (pos : Location)
      (vOpt : Option VehicleState) (endLoc : Option Location),
      ((assembleFrom cfg dist conds idx t pos vOpt order endLoc).1.map
        RouteStopOut.distanceFromPrevious).sum +
        endLegDistance (assembleFrom cfg dist conds idx t pos vOpt order endLoc).2 =
      routeDistance dist pos order endLoc := by
  intro order
  induction order with
  | nil =>
    intro idx t pos vOpt endLoc
    cases endLoc with
    | none => simp [assembleFrom, endLegDistance, routeDistance, legsFrom]
    | some e => simp [assembleFrom, endLegDistance, routeDistance, legsFrom]
  | cons c rest ih =>
    intro idx t pos vOpt endLoc
    have hlegs : legsFrom pos (c :: rest) endLoc =
        (pos, c.loc) :: legsFrom c.loc rest endLoc := rfl
    have hrd : routeDistance dist pos (c :: rest) endLoc =
        dist pos c.loc + routeDistance dist c.loc rest endLoc := by
      simp only [routeDistance, hlegs, List.map_cons, List.sum_cons]
    rw [hrd, ← ih (idx + 1)]
    simp only [assembleFrom, List.map_cons, List.sum_cons]
    ring

/-- The chained-arrival-times property: each stop arrives its own travel time
after the previous arrival (or after the reference time for the first). -/
def arrivalChain : ℚ → List RouteStopOut → Prop
  | _, [] => True
  | t, s :: rest =>
    s.arrivalTime = t + s.travelTimeMinutes ∧ arrivalChain s.arrivalTime rest

lemma assembleFrom_arrivalChain (cfg : OptimizerConfig)
    (dist : Location → Location → ℚ) (conds : List TrafficCondition) :
    ∀ (order : List Candidate) (idx : ℕ) (t : ℚ) (pos : Location)
      (vOpt : Option VehicleState) (endLoc : Option Location),
      arrivalChain t (assembleFrom cfg dist conds idx t pos vOpt order endLoc).1 := by
  intro order
  induction order with
  | nil =>
    intro idx t pos vOpt endLoc
    cases endLoc with
    | none => trivial
    | some e => trivial
  | cons c rest ih =>
    intro idx t pos vOpt endLoc
    refine ⟨rfl, ?_⟩
    exact ih (idx + 1) (t + legTime cfg dist conds pos c.loc t) c.loc _ endLoc

lemma arrivalChain_get : ∀ (l : List RouteStopOut) (t : ℚ), arrivalChain t l →
    ∀ i (h1 : i + 1 < l.length),
      (l.get ⟨i + 1, h1⟩).arrivalTime =
        (l.get ⟨i, Nat.lt_of_succ_lt h1⟩).arrivalTime +
        (l.get ⟨i + 1, h1⟩).travelTimeMinutes := by
  intro l
  induction l with
  | nil =>
    intro t h i h1
    simp at h1
  | cons s rest ih =>
    intro t h i h1
    obtain ⟨hs, hrest⟩ := h
    cases i with
    | zero =>
      cases rest with
      | nil => simp at h1
      | cons r rest2 => exact hrest.1
    | succ n =>
      exact ih s.arrivalTime hrest n (by simpa using h1)

lemma bruteForceMinCost_cons {α : Type} (cost : α → ℚ) (x : α) (xs : List α) :
    bruteForceMinCost cost (x :: xs) = minListCost cost x xs := rfl

/-- C1: every plan the optimizer returns has stop orders exactly 1..N
(1-based, contiguous), a reported total distance equal to the sum of the
per-leg distances (exactly, in rational arithmetic), and each later stop
arriving its own leg travel time after the previous stop. -/
theorem routePlan_invariants (cfg : OptimizerConfig)
    (dist : Location → Location → ℚ) (req : Request) (plan : RoutePlan)
    (h : optimize cfg dist req = .ok plan) :
    plan.stops.map RouteStopOut.stopOrder = List.range' 1 plan.stops.length ∧
    plan.totalDistanceMiles =
      (plan.stops.map RouteStopOut.distanceFromPrevious).sum +
        endLegDistance plan.endLeg ∧
    ∀ i (h1 : i + 1 < plan.stops.length),
      (plan.stops.get ⟨i + 1, h1⟩).arrivalTime =
        (plan.stops.get ⟨i, Nat.lt_of_succ_lt h1⟩).arrivalTime +
        (plan.stops.get ⟨i + 1, h1⟩).travelTimeMinutes := by
  obtain ⟨o, rfl, -⟩ := optimize_ok_inv cfg dist req plan h
  refine ⟨?_, ?_, ?_⟩
  · rw [assemble_stops]
    have h1 := assembleFrom_orders cfg dist req.conditions o 1
      (req.departure.getD 0) req.start req.vehicle req.endLoc
    have hlen : (assembleFrom cfg dist req.conditions 1 (req.departure.getD 0)
        req.start req.vehicle o req.endLoc).1.length = o.length := by
      have h2 := congrArg List.length h1
      simpa using h2
    rw [hlen, h1]
  · rw [assemble_totalDistance, assemble_stops, assemble_endLeg]
    exact (assembleFrom_distance cfg dist req.conditions o 1
      (req.departure.getD 0) req.start req.vehicle req.endLoc).symm
  · rw [assemble_stops]
    intro i h1
    exact arrivalChain_get _ _ (assembleFrom_arrivalChain cfg dist
      req.conditions o 1 (req.departure.getD 0) req.start req.vehicle
      req.endLoc) i h1

/-- Concrete one-station request from the spec scenario of section 8. -/
def reqC1 : Request :=
  { start := ⟨0, 0⟩, endLoc := some ⟨0, 3⟩,
    stations := [⟨1, ⟨0, 1⟩, [(FuelType.regular, 3)], []⟩],
    criteria := "distance", vehicle := none, departure := none,
    conditions := [] }

/-- C1 witness: the invariants hold of the plan computed for the concrete
one-station scenario. -/
theorem routePlan_invariants_witness :
    (planOf (optimize defaultConfig taxiDist reqC1)).stops.map
      RouteStopOut.stopOrder =
      List.range' 1 (planOf (optimize defaultConfig taxiDist reqC1)).stops.length ∧
    (planOf (optimize defaultConfig taxiDist reqC1)).totalDistanceMiles =
      ((planOf (optimize defaultConfig taxiDist reqC1)).stops.map
        RouteStopOut.distanceFromPrevious).sum +
        endLegDistance (planOf (optimize defaultConfig taxiDist reqC1)).endLeg ∧
    ∀ i (h1 : i + 1 < (planOf (optimize defaultConfig taxiDist reqC1)).stops.length),
      ((planOf (optimize defaultConfig taxiDist reqC1)).stops.get
          ⟨i + 1, h1⟩).arrivalTime =
        ((planOf (optimize defaultConfig taxiDist reqC1)).stops.get
          ⟨i, Nat.lt_of_succ_lt h1⟩).arrivalTime +
        ((planOf (optimize defaultConfig taxiDist reqC1)).stops.get
          ⟨i + 1, h1⟩).travelTimeMinutes :=
  routePlan_invariants defaultConfig taxiDist reqC1
    (planOf (optimize defaultConfig taxiDist reqC1)) (by with_unfolding_all decide)

/-- C2 (amended): for every request the search serves (nonempty candidate
set), the chosen ordering's cost is within the relative tie-break epsilon of
the brute-force minimum over all drivable permutations of the candidates for
the same criterion; the stated exact equality fails because the tie-break
rule may prefer a lexicographically smaller ordering whose cost differs from
the minimum by up to the relative epsilon. -/
theorem chosenOrdering_cost_optimal (cfg : OptimizerConfig)
    (dist : Location → Location → ℚ) (req : Request) (plan : RoutePlan)
    (crit : Crit)
    (hc : parseCriterion req.criteria = some crit)
    (hne : req.stations ≠ [])
    (hsmall : req.stations.length ≤ 6)
    (h : optimize cfg dist req = .ok plan) :
    ∃ best, plan = assemble cfg dist req best ∧ best ∈ considered dist req ∧
      approxEqB (orderCost cfg dist req crit best)
        (bruteForceMinCost (orderCost cfg dist req crit)
          (considered dist req)) = true ∧
      ∀ o ∈ considered dist req,
        bruteForceMinCost (orderCost cfg dist req crit) (considered dist req) ≤
          orderCost cfg dist req crit o := by
  obtain ⟨o, rfl, hcase⟩ := optimize_ok_inv cfg dist req _ h
  rcases hcase with ⟨hs, _⟩ | ⟨crit2, hc2, hp⟩
  · exact absurd hs hne
  · rw [hc] at hc2
    injection hc2 with hc2
    subst hc2
    rcases hcons : considered dist req with _ | ⟨x, xs⟩
    · rw [hcons] at hp
      cases hp
    · rw [hcons] at hp
      obtain ⟨hmem, happ, -⟩ := pickBest_spec _ orderKey x xs o hp
      refine ⟨o, rfl, hmem, ?_, ?_⟩
      · rw [bruteForceMinCost_cons]
        exact happ
      · intro o2 ho2
        rw [bruteForceMinCost_cons]
        exact minListCost_le _ x xs o2 ho2

/-- Concrete one-station request used to instantiate the amended C2. -/
def reqC2w : Request :=
  { start := ⟨0, 0⟩, endLoc := none,
    stations := [⟨1, ⟨0, 2⟩, [(FuelType.regular, 3)], []⟩],
    criteria := "distance", vehicle := none, departure := none,
    conditions := [] }

/-- C2 witness: the amended optimality statement instantiated on a concrete
one-station request. -/
theorem chosenOrdering_cost_optimal_witness :
    ∃ best, planOf (optimize defaultConfig taxiDist reqC2w) =
      assemble defaultConfig taxiDist reqC2w best ∧
      best ∈ considered taxiDist reqC2w ∧
      approxEqB (orderCost defaultConfig taxiDist reqC2w Crit.dist best)
        (bruteForceMinCost (orderCost defaultConfig taxiDist reqC2w Crit.dist)
          (considered taxiDist reqC2w)) = true ∧
      ∀ o ∈ considered taxiDist reqC2w,
        bruteForceMinCost (orderCost defaultConfig taxiDist reqC2w Crit.dist)
          (considered taxiDist reqC2w) ≤
          orderCost defaultConfig taxiDist reqC2w Crit.dist o :=
  chosenOrdering_cost_optimal defaultConfig taxiDist reqC2w
    (planOf (optimize defaultConfig taxiDist reqC2w)) Crit.dist
    (by with_unfolding_all decide) (by with_unfolding_all decide)
    (by with_unfolding_all decide) (by with_unfolding_all decide)

/-- Concrete two-station request on which the tie-break rule makes the
chosen cost differ from the brute-force minimum: the two orderings tie
within the relative epsilon, the ascending-identifier one is chosen, and its
cost exceeds the minimum by one ten-millionth. -/
def reqC2 : Request :=
  { start := ⟨0, 0⟩, endLoc := none,
    stations := [⟨1, ⟨0, 10000001 / 10000000⟩, [], []⟩, ⟨2, ⟨0, 1⟩, [], []⟩],
    criteria := "distance", vehicle := none, departure := none,
    conditions := [] }

set_option maxRecDepth 8000 in
unseal Rat.add Rat.sub Rat.mul Rat.inv Rat.ofScientific in
/-- C2 counterexample: on `reqC2` the optimizer succeeds, the chosen cost is
10000002/10000000, the brute-force minimum over all permutations is
10000001/10000000, and the two differ - so the claimed exact equality with
the brute-force minimum is false. -/
theorem chosenOrdering_cost_counterexample :
    optimize defaultConfig taxiDist reqC2 =
      .ok (planOf (optimize defaultConfig taxiDist reqC2)) ∧
    (planOf (optimize defaultConfig taxiDist reqC2)).totalDistanceMiles =
      10000002 / 10000000 ∧
    bruteForceMinCost (orderCost defaultConfig taxiDist reqC2 Crit.dist)
      (considered taxiDist reqC2) = 10000001 / 10000000 ∧
    (10000002 / 10000000 : ℚ) ≠ 10000001 / 10000000 := by
  decide

/-- C4: the optimizer is a pure function, so identical inputs give identical
results, and the tie-break rule holds: the chosen ordering is
lexicographically least (by candidate-identifier sequence) among all
considered orderings whose cost ties with the minimum within the relative
epsilon of 1e-6. -/
theorem optimizer_determinism_tiebreak (cfg : OptimizerConfig)
    (dist : Location → Location → ℚ) (req : Request) (plan : RoutePlan)
    (crit : Crit)
    (hc : parseCriterion req.criteria = some crit)
    (hne : req.stations ≠ [])
    (h : optimize cfg dist req = .ok plan) :
    optimize cfg dist req = optimize cfg dist req ∧
    ∃ best, pickBest (orderCost cfg dist req crit) orderKey
        (considered dist req) = some best ∧
      plan = assemble cfg dist req best ∧
      ∀ o ∈ considered dist req,
        approxEqB (orderCost cfg dist req crit o)
          (bruteForceMinCost (orderCost cfg dist req crit)
            (considered dist req)) = true →
        lexLtIds (orderKey o) (orderKey best) = false := by
  refine ⟨rfl, ?_⟩
  obtain ⟨o, rfl, hcase⟩ := optimize_ok_inv cfg dist req _ h
  rcases hcase with ⟨hs, _⟩ | ⟨crit2, hc2, hp⟩
  · exact absurd hs hne
  · rw [hc] at hc2
    injection hc2 with hc2
    subst hc2
    refine ⟨o, hp, rfl, ?_⟩
    rcases hcons : considered dist req with _ | ⟨x, xs⟩
    · rw [hcons] at hp
      cases hp
    · rw [hcons] at hp
      obtain ⟨-, -, hlex⟩ := pickBest_spec _ orderKey x xs o hp
      intro o2 ho2 happ2
      rw [bruteForceMinCost_cons] at happ2
      exact hlex o2 ho2 happ2

set_option maxRecDepth 8000 in
unseal Rat.add Rat.sub Rat.mul Rat.inv Rat.ofScientific in
/-- C4 witness: determinism and the tie-break instantiated on the concrete
two-station request whose orderings tie within the epsilon. -/
theorem optimizer_determinism_tiebreak_witness :
    optimize defaultConfig taxiDist reqC2 = optimize defaultConfig taxiDist reqC2 ∧
    ∃ best, pickBest (orderCost defaultConfig taxiDist reqC2 Crit.dist) orderKey
        (considered taxiDist reqC2) = some best ∧
      planOf (optimize defaultConfig taxiDist reqC2) =
        assemble defaultConfig taxiDist reqC2 best ∧
      ∀ o ∈ considered taxiDist reqC2,
        approxEqB (orderCost defaultConfig taxiDist reqC2 Crit.dist o)
          (bruteForceMinCost (orderCost defaultConfig taxiDist reqC2 Crit.dist)
            (considered taxiDist reqC2)) = true →
        lexLtIds (orderKey o) (orderKey best) = false :=
  optimizer_determinism_tiebreak defaultConfig taxiDist reqC2
    (planOf (optimize defaultConfig taxiDist reqC2)) Crit.dist
    (by decide) (by decide) (by decide)

/-- C3: when a vehicle state is supplied, the candidate set is nonempty, the
request is otherwise well-formed, and no permutation of the candidates is
drivable, the optimizer fails with the typed error `NoFeasibleRoute` instead
of returning a plan that ignores the constraint. -/
theorem noFeasible_rejected (cfg : OptimizerConfig)
    (dist : Location → Location → ℚ) (req : Request) (v : VehicleState)
    (crit : Crit)
    (hc : parseCriterion req.criteria = some crit)
    (hcv : allCoordsValid req = true)
    (hv : req.vehicle = some v)
    (hne : req.stations ≠ [])
    (hall : ∀ o ∈ allPermutations req.stations,
      feasibleFrom dist v req.start o req.endLoc = false) :
    optimize cfg dist req = .error .NoFeasibleRoute := by
  have hcons : considered dist req = [] := by
    unfold considered
    rw [hv]
    rw [List.filter_eq_nil_iff]
    intro o ho
    rw [hall o ho]
    exact Bool.false_ne_true
  unfold optimize
  simp only [hc]
  rw [if_pos hcv]
  rcases hs : req.stations with _ | ⟨a, l⟩
  · exact absurd hs hne
  · rw [hcons]
    rfl

/-- Concrete infeasible request: one station thirty miles away for a vehicle
with a one-mile range. -/
def reqC3 : Request :=
  { start := ⟨0, 0⟩, endLoc := none,
    stations := [⟨1, ⟨0, 30⟩, [(FuelType.regular, 3)], [FuelType.regular]⟩],
    criteria := "distance", vehicle := some ⟨1, 1, 1⟩, departure := none,
    conditions := [] }

unseal Rat.add Rat.sub Rat.mul Rat.inv Rat.ofScientific in
/-- C3 witness: the concrete infeasible request is rejected with
`NoFeasibleRoute`. -/
theorem noFeasible_rejected_witness :
    optimize defaultConfig taxiDist reqC3 = .error .NoFeasibleRoute :=
  noFeasible_rejected defaultConfig taxiDist reqC3 ⟨1, 1, 1⟩ Crit.dist
    (by decide) (by decide) (by decide) (by decide) (by decide)

/-- C7: a well-formed request with zero candidate stations succeeds with a
direct start-to-end plan (no stops, total distance the direct leg) when an
end location is supplied, and fails with `InvalidRouteRequest` when no end
location is supplied either. -/
theorem emptyCandidates_directLeg (cfg : OptimizerConfig)
    (dist : Location → Location → ℚ) (req : Request) (crit : Crit)
    (hc : parseCriterion req.criteria = some crit)
    (hcv : allCoordsValid req = true)
    (hs : req.stations = []) :
    (∀ e, req.endLoc = some e →
      ∃ plan, optimize cfg dist req = .ok plan ∧ plan.stops = [] ∧
        plan.totalDistanceMiles = dist req.start e ∧
        ∃ el, plan.endLeg = some el ∧ el.distanceMiles = dist req.start e) ∧
    (req.endLoc = none → optimize cfg dist req = .error .InvalidRouteRequest) := by
  constructor
  · intro e he
    refine ⟨assemble cfg dist req [], ?_, ?_, ?_, ?_⟩
    · unfold optimize
      simp only [hc]
      rw [if_pos hcv]
      simp only [hs, he]
    · rw [assemble_stops, he]
      rfl
    · rw [assemble_totalDistance, he]
      simp [routeDistance, legsFrom]
    · rw [assemble_endLeg, he]
      exact ⟨_, rfl, rfl⟩
  · intro he
    unfold optimize
    simp only [hc]
    rw [if_pos hcv]
    simp only [hs, he]

/-- Concrete zero-station request with an end location. -/
def reqC7a : Request :=
  { start := ⟨0, 0⟩, endLoc := some ⟨0, 3⟩, stations := [],
    criteria := "distance", vehicle := none, departure := none,
    conditions := [] }

/-- Concrete zero-station request with no end location. -/
def reqC7b : Request :=
  { start := ⟨0, 0⟩, endLoc := none, stations := [],
    criteria := "distance", vehicle := none, departure := none,
    conditions := [] }

unseal Rat.add Rat.sub Rat.mul Rat.inv Rat.ofScientific in
/-- C7 witness: both halves instantiated on concrete zero-station requests:
with an end location the optimizer returns the direct leg, without one it
fails with `InvalidRouteRequest`. -/
theorem emptyCandidates_directLeg_witness :
    (∃ plan, optimize defaultConfig taxiDist reqC7a = .ok plan ∧
      plan.stops = [] ∧
      plan.totalDistanceMiles = taxiDist reqC7a.start ⟨0, 3⟩ ∧
      ∃ el, plan.endLeg = some el ∧
        el.distanceMiles = taxiDist reqC7a.start ⟨0, 3⟩) ∧
    optimize defaultConfig taxiDist reqC7b = .error .InvalidRouteRequest :=
  ⟨(emptyCandidates_directLeg defaultConfig taxiDist reqC7a Crit.dist
      (by decide) (by decide) (by decide)).1 ⟨0, 3⟩ (by decide),
   (emptyCandidates_directLeg defaultConfig taxiDist reqC7b Crit.dist
      (by decide) (by decide) (by decide)).2 (by decide)⟩
